import Mathlib

/-!
Verification of the Resilience & Consistency Toolkit of Keyfingers/microService:
the Saga coordinator, the idempotency middleware, the token-bucket rate limiter
and the circuit breaker, as given in `FINANCIAL_GRADE_UPGRADE.md`
(`Saga.Execute` / `Saga.compensate`, `IdempotentMiddleware`,
`TokenBucket.Allow` with its Lua script, `CircuitBreaker.Call/allow/record`),
with the coordination-store primitives from `internal/cache`
(`Exists`, `Lock` via SetNX, `Unlock` via delete, `Set`).

Machine integers of the source (int64 counters, Unix-second timestamps, Lua
numbers over integral inputs) are modelled as `Int`; the values involved are
far below any overflow boundary on the inputs considered.
-/

namespace MicroService

/-! ### Token bucket (`internal/ratelimit/token_bucket.go`, Lua script) -/

/-- Configuration of a `TokenBucket`: `capacity` (桶容量) and `rate`
(tokens generated per second), both int64 in the source. -/
structure TokenBucket where
  capacity : Int
  rate : Int
  deriving Repr, DecidableEq

/-- The persistent per-key state kept in the store's hash:
fields `tokens` and `last_time`, written back by the Lua script. -/
structure BucketState where
  tokens : Int
  lastTime : Int
  deriving Repr, DecidableEq

/-- One execution of the Lua script of `TokenBucket.Allow`, at clock `now`
(Unix seconds).  `st = none` is a key with no stored hash: `tonumber(bucket[1])
or capacity` defaults `tokens` to `capacity`, and `tonumber(bucket[2]) or now`
defaults `last_time` to `now`.  The script computes
`new_tokens = math.min(capacity, tokens + delta * rate)`, consumes one token
when `new_tokens >= 1`, and writes the state back in either branch.
Returns the script's boolean result (1 admitted / 0 denied) and the state
written back by HMSET. -/
def allowStep (tb : TokenBucket) (st : Option BucketState) (now : Int) :
    Bool × BucketState :=
  let tokens := match st with | some s => s.tokens | none => tb.capacity
  let lastTime := match st with | some s => s.lastTime | none => now
  let delta := now - lastTime
  let newTokens := min tb.capacity (tokens + delta * tb.rate)
  if 1 ≤ newTokens then
    (true, { tokens := newTokens - 1, lastTime := now })
  else
    (false, { tokens := newTokens, lastTime := now })

/-- Bucket states reachable through `TokenBucket.Allow`: the state written on
the first call against a fresh key, and then any further call whose clock
reading `now` is not before the stored `last_time` (the script reads
`time.Now().Unix()`, which does not run backwards within an execution). -/
inductive Reachable (tb : TokenBucket) : BucketState → Prop where
  | first (now : Int) : Reachable tb (allowStep tb none now).2
  | step (s : BucketState) (now : Int) : Reachable tb s → s.lastTime ≤ now →
      Reachable tb (allowStep tb (some s) now).2

/-! ### Circuit breaker (`internal/circuitbreaker/breaker.go`) -/

/-- The `State` of the breaker: `StateClosed`, `StateOpen`, `StateHalfOpen`. -/
inductive BreakerState where
  | Closed
  | Open
  | HalfOpen
  deriving Repr, DecidableEq

/-- The `CircuitBreaker` struct: mutable `state`, `failureCount`,
`successCount`, `openTime`, and configured `failureThreshold` and `timeout`.
Timestamps and durations are Unix-clock integers. -/
structure CircuitBreaker where
  state : BreakerState
  failureCount : Nat
  successCount : Nat
  failureThreshold : Nat
  timeout : Int
  openTime : Int
  deriving Repr, DecidableEq

namespace CircuitBreaker

/-- Constructor `NewCircuitBreaker`: starts Closed with zero counts (Go zero values). -/
def new (failureThreshold : Nat) (timeout : Int) : CircuitBreaker :=
  { state := .Closed
    failureCount := 0
    successCount := 0
    failureThreshold := failureThreshold
    timeout := timeout
    openTime := 0 }

/-- Method `CircuitBreaker.allow` at clock `now`: Closed admits; Open admits and
moves to HalfOpen (resetting `successCount`) once `time.Since(openTime) >
timeout`, otherwise rejects; HalfOpen admits.  Returns the decision and the
(possibly mutated) breaker. -/
def allow (cb : CircuitBreaker) (now : Int) : Bool × CircuitBreaker :=
  match cb.state with
  | .Closed => (true, cb)
  | .Open =>
      if cb.timeout < now - cb.openTime then
        (true, { cb with state := .HalfOpen, successCount := 0 })
      else
        (false, cb)
  | .HalfOpen => (true, cb)

/-- Method `CircuitBreaker.record` of a call outcome at clock `now` (`failed = true`
models `err != nil`).  On failure: increment `failureCount`, zero
`successCount`, and trip to Open (stamping `openTime = now`) when Closed with
`failureCount >= failureThreshold`, or immediately when HalfOpen.  On success:
increment `successCount`, zero `failureCount`, and close when HalfOpen with
`successCount >= 2`. -/
def record (cb : CircuitBreaker) (failed : Bool) (now : Int) : CircuitBreaker :=
  if failed then
    let cb1 := { cb with failureCount := cb.failureCount + 1, successCount := 0 }
    if cb1.state = .Closed ∧ cb1.failureThreshold ≤ cb1.failureCount then
      { cb1 with state := .Open, openTime := now }
    else if cb1.state = .HalfOpen then
      { cb1 with state := .Open, openTime := now }
    else
      cb1
  else
    let cb1 := { cb with successCount := cb.successCount + 1, failureCount := 0 }
    if cb1.state = .HalfOpen ∧ 2 ≤ cb1.successCount then
      { cb1 with state := .Closed }
    else
      cb1

end CircuitBreaker

/-- Outcome of `CircuitBreaker.Call`: either the `ErrCircuitOpen` sentinel
without invoking the wrapped function, or the wrapped function was invoked
and its outcome is reported (`failed = true` iff it returned an error). -/
inductive CallResult where
  | rejected
  | invoked (failed : Bool)
  deriving Repr, DecidableEq

/-- Method `CircuitBreaker.Call` at clock `now`, where the wrapped `fn` would fail
iff `fnFails`: consult `allow`; if rejected return `ErrCircuitOpen` without
invoking `fn`; otherwise invoke `fn` and `record` its outcome. -/
def CircuitBreaker.call (cb : CircuitBreaker) (now : Int) (fnFails : Bool) :
    CallResult × CircuitBreaker :=
  let res := cb.allow now
  if res.1 then
    (CallResult.invoked fnFails, res.2.record fnFails now)
  else
    (CallResult.rejected, res.2)

/-- Iterating `n` consecutive calls through `Call` whose wrapped function fails each
time, all at clock `now`. -/
def CircuitBreaker.failCalls (cb : CircuitBreaker) (now : Int) : Nat → CircuitBreaker
  | 0 => cb
  | n + 1 => CircuitBreaker.failCalls (cb.call now true).2 now n

/-! ### Saga (`internal/saga` code of `FINANCIAL_GRADE_UPGRADE.md` §2.1) -/

/-- A Saga `Step`: `Name`, its `Do` action and its `Compensate` action.  The
behaviour of the caller-supplied closures is abstracted to their outcomes:
`actionOk`/`compOk` say whether `Do`/`Compensate` return nil, and `actionErr`
is the error message `Do` would return when it fails. -/
structure Step where
  name : String
  actionOk : Bool
  actionErr : String
  compOk : Bool
  deriving Repr, DecidableEq

/-- Default step used only by `List.getD` when an index is out of range
(never reached on the inputs considered). -/
instance : Inhabited Step := ⟨⟨"", true, "", true⟩⟩

/-- Indexing `steps[i]` with the default step out of range, mirroring the Go slice
indexing `s.steps[i]` (which never goes out of range in the executions
considered). -/
def stepAt (steps : List Step) (i : Nat) : Step :=
  steps.getD i default

/-- An observable invocation made by the Saga: `act i` is `steps[i].Do(ctx)`,
`comp i` is `steps[i].Compensate(ctx)`. -/
inductive SagaEv where
  | act (i : Nat)
  | comp (i : Nat)
  deriving Repr, DecidableEq

/-- The error value `Execute` returns on failure:
`fmt.Errorf("步骤 %s 执行失败: %w", step.Name, err)` carries the failing
step's name and wraps the underlying action error — nothing else. -/
structure SagaError where
  stepName : String
  wrapped : String
  deriving Repr, DecidableEq

/-- What one `Execute` run produces: the returned error (`none` = nil), the
ordered trace of step invocations, and the lines `compensate` prints to
stdout (`补偿步骤 %s 失败`) for failed compensations — printed, not returned. -/
structure SagaRun where
  err : Option SagaError
  trace : List SagaEv
  printed : List String
  deriving Repr, DecidableEq

/-- The body of `Saga.compensate`'s loop, processing the stored indices of
`executedSteps` already reversed (the Go loop walks `executedSteps` from its
last element to its first): look each index up in `steps`, invoke its
`Compensate`, and when that fails print the step name and continue. -/
def compensateList (steps : List Step) : List Nat → List SagaEv × List String
  | [] => ([], [])
  | idx :: rest =>
      match steps.get? idx with
      | some st =>
          let r := compensateList steps rest
          (SagaEv.comp idx :: r.1, if st.compOk then r.2 else st.name :: r.2)
      | none => compensateList steps rest

/-- Method `Saga.compensate`: iterate `executedSteps` in reverse order. -/
def compensate (steps : List Step) (executedSteps : List Nat) :
    List SagaEv × List String :=
  compensateList steps executedSteps.reverse

/-- The loop of `Saga.Execute` over the remaining steps `rest`, where `i` is
the index of the head of `rest` in the full list and `executedSteps` holds the
indices of the steps whose action already succeeded.  On a failing action it
calls `compensate` and returns the wrapping error; otherwise it appends the
index and continues. -/
def executeFrom (steps : List Step) (rest : List Step) (i : Nat)
    (executedSteps : List Nat) : SagaRun :=
  match rest with
  | [] => { err := none, trace := [], printed := [] }
  | st :: rest' =>
      if st.actionOk then
        let r := executeFrom steps rest' (i + 1) (executedSteps ++ [i])
        { r with trace := SagaEv.act i :: r.trace }
      else
        let c := compensate steps executedSteps
        { err := some { stepName := st.name, wrapped := st.actionErr }
          trace := SagaEv.act i :: c.1
          printed := c.2 }

/-- Method `Saga.Execute` on a freshly built Saga (`NewSaga` starts with empty
`steps`/`executedSteps`; `AddStep` appended `steps` in order). -/
def execute (steps : List Step) : SagaRun :=
  executeFrom steps steps 0 []

/-! ### Idempotency middleware (`internal/middleware/idempotent.go` code of
`FINANCIAL_GRADE_UPGRADE.md` §3.1) -/

/-- The slice of the coordination store (`internal/cache`, backed by Redis)
this middleware touches for one idempotency key: whether the completion
record `idempotent:<key>` exists, and whether the lock `lock:<key>` is
currently held (`Lock` is SetNX, `Unlock` deletes the key). -/
structure Store where
  completed : Bool
  locked : Bool
  deriving Repr, DecidableEq

/-- Observable store/handler operations of one middleware execution, in
order: `checkComplete` reads `cache.Exists` on the completion record,
`lockOk`/`lockBusy` is the `cache.Lock` SetNX attempt and its outcome,
`invokeOp` is `c.Next()` (the guarded handler), `setComplete ttl` writes the
completion record with retention `ttl` seconds, `unlock` deletes the lock. -/
inductive MwEv where
  | checkComplete
  | lockOk
  | lockBusy
  | invokeOp
  | setComplete (ttl : Int)
  | unlock
  deriving Repr, DecidableEq

/-- What one middleware execution produces: the HTTP status written to the
client, the store afterwards, and the ordered trace of operations. -/
structure MwRun where
  status : Int
  store : Store
  trace : List MwEv
  deriving Repr, DecidableEq

/-- The handler `IdempotentMiddleware` for one request: `method` and the
`X-Idempotent-Key` header value `key`; `opStatus` is the status the guarded
handler chain (`c.Next()`) would write.  GET/HEAD pass straight through.  A
missing key is answered 400 (缺少幂等性令牌).  Then: `cache.Exists` on the
completion record answers 409 when present; `cache.Lock` answers 429 when the
lock is busy; otherwise the handler runs, a 2xx outcome writes the completion
record with a 24-hour TTL (`cache.Set(..., 24*time.Hour)`), and the deferred
`cache.Unlock` releases the lock last. -/
def middleware (method : String) (key : String) (opStatus : Int)
    (st : Store) : MwRun :=
  if method = "GET" ∨ method = "HEAD" then
    { status := opStatus, store := st, trace := [MwEv.invokeOp] }
  else if key = "" then
    { status := 400, store := st, trace := [] }
  else if st.completed then
    { status := 409, store := st, trace := [MwEv.checkComplete] }
  else if st.locked then
    { status := 429, store := st, trace := [MwEv.checkComplete, MwEv.lockBusy] }
  else if 200 ≤ opStatus ∧ opStatus < 300 then
    { status := opStatus
      store := { completed := true, locked := false }
      trace := [MwEv.checkComplete, MwEv.lockOk, MwEv.invokeOp,
                MwEv.setComplete (24 * 3600), MwEv.unlock] }
  else
    { status := opStatus
      store := { completed := false, locked := false }
      trace := [MwEv.checkComplete, MwEv.lockOk, MwEv.invokeOp, MwEv.unlock] }

/-- Test `xs.isSubseqOf ys`: `xs` occurs inside `ys` in order, not necessarily
contiguously (a subsequence test used to state ordering facts on traces). -/
def isSubseqOf [DecidableEq α] : List α → List α → Bool
  | [], _ => true
  | _ :: _, [] => false
  | x :: xs, y :: ys =>
      if x = y then isSubseqOf xs ys else isSubseqOf (x :: xs) ys

/-- A concrete breaker in the Open state (threshold 2, timeout 10, opened at
clock 0), used as a test vector. -/
def cbOpenW : CircuitBreaker :=
  { state := .Open, failureCount := 2, successCount := 0,
    failureThreshold := 2, timeout := 10, openTime := 0 }

/-- A concrete breaker in the HalfOpen state (threshold 2, timeout 10), used
as a test vector. -/
def cbHalfW : CircuitBreaker :=
  { state := .HalfOpen, failureCount := 2, successCount := 0,
    failureThreshold := 2, timeout := 10, openTime := 0 }

/-- A concrete four-step saga whose step 2 action fails (step 1's
compensation also fails), used as a test vector. -/
def sagaW : List Step :=
  [⟨"s0", true, "", true⟩, ⟨"s1", true, "", false⟩,
   ⟨"s2", false, "boom", true⟩, ⟨"s3", true, "", true⟩]

/-! ## Helper lemmas: token bucket -/

/-- Unfolding of the Lua script on a stored state. -/
lemma allowStep_some_eq (tb : TokenBucket) (t l now : Int) :
    allowStep tb (some ⟨t, l⟩) now =
      if 1 ≤ min tb.capacity (t + (now - l) * tb.rate) then
        (true, ⟨min tb.capacity (t + (now - l) * tb.rate) - 1, now⟩)
      else
        (false, ⟨min tb.capacity (t + (now - l) * tb.rate), now⟩) := rfl

/-- Unfolding of the Lua script on a fresh key: both defaults fire, so the
elapsed time is zero and the refill expression collapses to the capacity. -/
lemma allowStep_none_eq (tb : TokenBucket) (now : Int) :
    allowStep tb none now =
      if 1 ≤ tb.capacity then
        (true, ⟨tb.capacity - 1, now⟩)
      else
        (false, ⟨tb.capacity, now⟩) := by
  show (if 1 ≤ min tb.capacity (tb.capacity + (now - now) * tb.rate) then
        ((true : Bool), (⟨min tb.capacity (tb.capacity + (now - now) * tb.rate) - 1, now⟩ : BucketState))
      else
        (false, ⟨min tb.capacity (tb.capacity + (now - now) * tb.rate), now⟩)) = _
  rw [sub_self, zero_mul, add_zero, min_self]

/-! ## Helper lemmas: circuit breaker -/

/-- Iterated failing calls split into two runs. -/
lemma failCalls_add (cb : CircuitBreaker) (now : Int) (a b : Nat) :
    cb.failCalls now (a + b) = (cb.failCalls now a).failCalls now b := by
  induction a generalizing cb with
  | zero => rw [Nat.zero_add]; rfl
  | succ a ih =>
      have h1 : a + 1 + b = (a + b) + 1 := by omega
      rw [h1]
      show CircuitBreaker.failCalls (cb.call now true).2 now (a + b) = _
      rw [ih]
      rfl

/-- A failing call on a Closed breaker below the threshold: the breaker stays
Closed, with `failureCount` incremented and `successCount` zeroed. -/
lemma call_closed_fail_below (cb : CircuitBreaker) (now : Int)
    (h : cb.state = .Closed) (hlt : cb.failureCount + 1 < cb.failureThreshold) :
    (cb.call now true).2 =
      { cb with failureCount := cb.failureCount + 1, successCount := 0 } := by
  simp only [CircuitBreaker.call, CircuitBreaker.allow, CircuitBreaker.record, h]
  simp only [if_true]
  rw [if_neg, if_neg]
  · simp [h]
  · simp [h]
    omega

/-- A failing call on a Closed breaker that reaches the threshold: the
breaker trips to Open and stamps `openTime = now`. -/
lemma call_closed_fail_trip (cb : CircuitBreaker) (now : Int)
    (h : cb.state = .Closed) (hge : cb.failureThreshold ≤ cb.failureCount + 1) :
    (cb.call now true).2 =
      { cb with failureCount := cb.failureCount + 1, successCount := 0,
                state := .Open, openTime := now } := by
  simp only [CircuitBreaker.call, CircuitBreaker.allow, CircuitBreaker.record, h]
  simp only [if_true]
  rw [if_pos]
  simp [h, hge]

/-- Running `j` failing calls from a Closed breaker while staying below the
threshold keeps it Closed and accumulates `failureCount`. -/
lemma failCalls_closed (j : Nat) (cb : CircuitBreaker) (now : Int)
    (h : cb.state = .Closed) (hj : cb.failureCount + j < cb.failureThreshold) :
    (cb.failCalls now j).state = .Closed ∧
      (cb.failCalls now j).failureCount = cb.failureCount + j ∧
      (cb.failCalls now j).failureThreshold = cb.failureThreshold := by
  induction j generalizing cb with
  | zero => exact ⟨h, rfl, rfl⟩
  | succ j ih =>
      have hstep : cb.failCalls now (j + 1) =
          CircuitBreaker.failCalls (cb.call now true).2 now j := rfl
      rw [hstep, call_closed_fail_below cb now h (by omega)]
      have := ih { cb with failureCount := cb.failureCount + 1, successCount := 0 }
        (by simp [h]) (by simp; omega)
      simpa [Nat.add_assoc, Nat.add_comm 1 j] using this

/-! ## Helper lemmas: saga -/

/-- The loop of `compensate` on on a list of valid indices: it invokes every
step's compensation in list order and prints the names of the ones that
fail, in the same order. -/
lemma compensateList_eq (steps : List Step) (l : List Nat)
    (h : ∀ i ∈ l, i < steps.length) :
    compensateList steps l =
      (l.map SagaEv.comp,
       (l.filter (fun i => !(stepAt steps i).compOk)).map
         (fun i => (stepAt steps i).name)) := by
  induction l with
  | nil => rfl
  | cons i rest ih =>
      have hi : i < steps.length := h i (List.mem_cons_self i rest)
      have hget : steps.get? i = some (stepAt steps i) := by
        show steps.get? i = some (steps.getD i default)
        rw [List.get?_eq_getElem?, List.getElem?_eq_getElem hi,
          List.getD_eq_getElem _ _ hi]
      simp only [compensateList, hget]
      rw [ih (fun j hj => h j (List.mem_cons_of_mem _ hj))]
      cases hc : (stepAt steps i).compOk
      · simp only [List.filter_cons, hc, Bool.not_false, if_true, List.map_cons,
          Bool.false_eq_true, if_false]
      · simp only [List.filter_cons, hc, Bool.not_true, if_true, List.map_cons,
          Bool.false_eq_true, if_false]

/-- Unfolding of the `Execute` loop on a step whose action succeeds. -/
lemma executeFrom_cons_ok (steps : List Step) (st : Step) (rest : List Step)
    (i : Nat) (ex : List Nat) (h : st.actionOk = true) :
    executeFrom steps (st :: rest) i ex =
      { executeFrom steps rest (i + 1) (ex ++ [i]) with
        trace := SagaEv.act i ::
          (executeFrom steps rest (i + 1) (ex ++ [i])).trace } := by
  simp only [executeFrom, if_pos h]

/-- The `Execute` loop over a suffix whose actions all succeed: it runs every
action in order, compensates nothing, prints nothing, and returns nil. -/
lemma executeFrom_all_ok (steps : List Step) (rest : List Step) (i : Nat)
    (ex : List Nat) (h : ∀ st ∈ rest, st.actionOk) :
    executeFrom steps rest i ex =
      { err := none, trace := (List.range' i rest.length).map SagaEv.act,
        printed := [] } := by
  induction rest generalizing i ex with
  | nil => rfl
  | cons st rest' ih =>
      have hst : st.actionOk := h st (List.mem_cons_self st rest')
      simp only [executeFrom, if_pos hst,
        ih (i + 1) (ex ++ [i]) (fun s hs => h s (List.mem_cons_of_mem _ hs))]
      simp [List.range'_succ]

/-- The `Execute` loop over a suffix made of a succeeding prefix `pre`, a
step `fs` whose action fails, and an arbitrary tail `post`: every action of
`pre` runs in order, `fs`'s action runs, nothing after runs, and the indices
recorded for `pre` are compensated; the returned error wraps `fs`'s name and
action error only. -/
lemma executeFrom_fail (steps : List Step) (pre : List Step) (fs : Step)
    (post : List Step) (i : Nat) (ex : List Nat)
    (hpre : ∀ st ∈ pre, st.actionOk) (hf : fs.actionOk = false) :
    executeFrom steps (pre ++ fs :: post) i ex =
      { err := some ⟨fs.name, fs.actionErr⟩
        trace := (List.range' i pre.length).map SagaEv.act ++
          SagaEv.act (i + pre.length) ::
            (compensate steps (ex ++ List.range' i pre.length)).1
        printed := (compensate steps (ex ++ List.range' i pre.length)).2 } := by
  induction pre generalizing i ex with
  | nil =>
      simp only [List.nil_append, executeFrom, hf, Bool.false_eq_true, if_false]
      simp [List.range']
  | cons p pre' ih =>
      have hp : p.actionOk := hpre p (List.mem_cons_self p pre')
      have hrec := ih (i + 1) (ex ++ [i])
        (fun s hs => hpre s (List.mem_cons_of_mem _ hs))
      have hidx : (ex ++ [i]) ++ List.range' (i + 1) pre'.length =
          ex ++ List.range' i (pre'.length + 1) := by
        rw [List.range'_succ, List.append_assoc]
        rfl
      have hlen : i + 1 + pre'.length = i + (pre'.length + 1) := by omega
      rw [List.cons_append, executeFrom_cons_ok steps p _ i ex hp, hrec]
      simp [hidx, hlen, List.range'_succ]

/-! ## Helper lemmas: idempotency middleware -/

/-- Every execution of the middleware produces one of six literal traces. -/
lemma middleware_trace_cases (method key : String) (opStatus : Int) (st : Store) :
    (middleware method key opStatus st).trace ∈
      [[MwEv.invokeOp], ([] : List MwEv), [MwEv.checkComplete],
       [MwEv.checkComplete, MwEv.lockBusy],
       [MwEv.checkComplete, MwEv.lockOk, MwEv.invokeOp,
        MwEv.setComplete (24 * 3600), MwEv.unlock],
       [MwEv.checkComplete, MwEv.lockOk, MwEv.invokeOp, MwEv.unlock]] := by
  unfold middleware
  split
  · simp
  · split
    · simp
    · split
      · simp
      · split
        · simp
        · split
          · simp
          · simp

/-! ## Claim theorems -/

/-- C3.  `TokenBucket.Allow` on stored state `(storedTokens, lastRefillTime)`
at clock `now` computes `newTokens = min(capacity, storedTokens +
(now − lastRefillTime) * refillRate)`; when `newTokens ≥ 1` it persists
`newTokens − 1` with `lastRefillTime = now` and returns allowed, otherwise it
persists `newTokens` with `lastRefillTime = now` and returns denied. -/
theorem tokenBucket_allow_spec (tb : TokenBucket) (storedTokens lastRefillTime now : Int) :
    allowStep tb (some ⟨storedTokens, lastRefillTime⟩) now =
      (let newTokens := min tb.capacity (storedTokens + (now - lastRefillTime) * tb.rate)
       if 1 ≤ newTokens then
         (true, { tokens := newTokens - 1, lastTime := now })
       else
         (false, { tokens := newTokens, lastTime := now })) :=
  allowStep_some_eq tb storedTokens lastRefillTime now

/-- C9.  On a key with no stored bucket state the script defaults the tokens
to `capacity` and the last refill time to `now`, so with `capacity ≥ 1` the
first call is admitted and `capacity − 1` tokens are stored. -/
theorem tokenBucket_fresh_key_admitted (tb : TokenBucket) (now : Int)
    (h : 1 ≤ tb.capacity) :
    allowStep tb none now = (true, { tokens := tb.capacity - 1, lastTime := now }) := by
  rw [allowStep_none_eq, if_pos h]

/-- Witness for C9 at capacity 2, rate 1, clock 5. -/
theorem tokenBucket_fresh_key_admitted_witness :
    (1 : Int) ≤ (2 : Int) ∧
      allowStep ⟨2, 1⟩ none 5 = (true, { tokens := 1, lastTime := 5 }) :=
  ⟨by norm_num, tokenBucket_fresh_key_admitted ⟨2, 1⟩ 5 (by norm_num)⟩

/-- C8.  With nonnegative configured capacity and refill rate, every bucket
state reachable through `TokenBucket.Allow` satisfies
`0 ≤ currentTokens ≤ capacity`. -/
theorem tokenBucket_invariant (tb : TokenBucket) (hc : 0 ≤ tb.capacity)
    (hr : 0 ≤ tb.rate) (s : BucketState) (h : Reachable tb s) :
    0 ≤ s.tokens ∧ s.tokens ≤ tb.capacity := by
  induction h with
  | first now =>
      rw [allowStep_none_eq]
      split
      · constructor <;> simp <;> omega
      · constructor <;> simp [hc]
  | step s now _ hmono ih =>
      obtain ⟨s1, s2⟩ := ih
      have hx : 0 ≤ s.tokens + (now - s.lastTime) * tb.rate := by
        have : 0 ≤ (now - s.lastTime) * tb.rate :=
          mul_nonneg (by omega) hr
        omega
      obtain ⟨t, l⟩ := s
      rw [allowStep_some_eq]
      have hmin1 : 0 ≤ min tb.capacity (t + (now - l) * tb.rate) :=
        le_min hc hx
      have hmin2 : min tb.capacity (t + (now - l) * tb.rate) ≤ tb.capacity :=
        min_le_left _ _
      split
      · constructor <;> simp <;> omega
      · constructor <;> simp <;> omega

/-- Witness for C8: the state left by a first call on a fresh key with
capacity 2, rate 1 is within bounds. -/
theorem tokenBucket_invariant_witness :
    0 ≤ (allowStep ⟨2, 1⟩ none 0).2.tokens ∧
      (allowStep ⟨2, 1⟩ none 0).2.tokens ≤ (⟨2, 1⟩ : TokenBucket).capacity :=
  tokenBucket_invariant ⟨2, 1⟩ (by norm_num) (by norm_num) _ (Reachable.first 0)

/-- C1.  When step `k`'s action fails during `Execute`: the actions of steps
`0..k-1` and of step `k` each run exactly once, actions of steps after `k`
never run, the compensations of steps `0..k-1` each run exactly once in
strict reverse order of execution (the trace ends `comp (k-1), …, comp 0`),
and step `k`'s compensation never runs. -/
theorem saga_step_failure_rollback (steps : List Step) (k : Nat)
    (hk : k < steps.length)
    (hpre : ∀ i, i < k → (stepAt steps i).actionOk = true)
    (hfail : (stepAt steps k).actionOk = false) :
    (execute steps).trace =
        (List.range (k + 1)).map SagaEv.act ++
          ((List.range k).reverse).map SagaEv.comp ∧
      (∀ i, i ≤ k → (execute steps).trace.count (SagaEv.act i) = 1) ∧
      (∀ i, k < i → (execute steps).trace.count (SagaEv.act i) = 0) ∧
      (∀ i, i < k → (execute steps).trace.count (SagaEv.comp i) = 1) ∧
      (execute steps).trace.count (SagaEv.comp k) = 0 := by
  have hdecomp : steps = steps.take k ++ stepAt steps k :: steps.drop (k + 1) := by
    conv_lhs => rw [← List.take_append_drop k steps]
    rw [List.drop_eq_getElem_cons hk,
      show stepAt steps k = steps[k] from List.getD_eq_getElem _ _ hk]
  have htake : ∀ st ∈ steps.take k, st.actionOk = true := by
    intro st hst
    rw [List.mem_iff_getElem] at hst
    obtain ⟨n, hn, hEq⟩ := hst
    have hn' : n < k := by
      have := hn
      simp only [List.length_take] at this
      omega
    have hn'' : n < steps.length := by omega
    rw [← hEq, List.getElem_take,
      show steps[n] = stepAt steps n from (List.getD_eq_getElem _ _ hn'').symm]
    exact hpre n hn'
  have hrun := executeFrom_fail steps (steps.take k) (stepAt steps k)
    (steps.drop (k + 1)) 0 [] htake hfail
  have hswap : executeFrom steps steps 0 [] =
      executeFrom steps (steps.take k ++ stepAt steps k :: steps.drop (k + 1))
        0 [] := by
    rw [← hdecomp]
  have hlen : (steps.take k).length = k := by
    rw [List.length_take]
    omega
  have hvalid : ∀ i ∈ (List.range k).reverse, i < steps.length := by
    intro i hi
    rw [List.mem_reverse, List.mem_range] at hi
    omega
  have hcomp := compensateList_eq steps (List.range k).reverse hvalid
  have htrace : (execute steps).trace =
      (List.range (k + 1)).map SagaEv.act ++
        ((List.range k).reverse).map SagaEv.comp := by
    show (executeFrom steps steps 0 []).trace = _
    rw [hswap, hrun]
    simp only [hlen, List.nil_append, ← List.range_eq_range', compensate, hcomp]
    rw [List.range_succ, List.map_append]
    simp
  have hactinj : Function.Injective SagaEv.act := fun a b h => by
    injection h
  have hcompinj : Function.Injective SagaEv.comp := fun a b h => by
    injection h
  have hactB : ∀ i : Nat,
      (((List.range k).reverse).map SagaEv.comp).count (SagaEv.act i) = 0 := by
    intro i
    refine List.count_eq_zero_of_not_mem ?_
    simp [List.mem_map]
  have hcompA : ∀ i : Nat,
      (((List.range (k + 1))).map SagaEv.act).count (SagaEv.comp i) = 0 := by
    intro i
    refine List.count_eq_zero_of_not_mem ?_
    simp [List.mem_map]
  refine ⟨htrace, ?_, ?_, ?_, ?_⟩
  · intro i hi
    rw [htrace, List.count_append, hactB,
      List.count_map_of_injective _ _ hactinj,
      List.count_eq_one_of_mem (List.nodup_range _)
        (List.mem_range.mpr (by omega))]
  · intro i hi
    rw [htrace, List.count_append, hactB,
      List.count_map_of_injective _ _ hactinj,
      List.count_eq_zero_of_not_mem (by
        rw [List.mem_range]
        omega)]
  · intro i hi
    rw [htrace, List.count_append, hcompA,
      List.count_map_of_injective _ _ hcompinj, List.count_reverse,
      List.count_eq_one_of_mem (List.nodup_range _)
        (List.mem_range.mpr (by omega))]
  · rw [htrace, List.count_append, hcompA,
      List.count_map_of_injective _ _ hcompinj, List.count_reverse,
      List.count_eq_zero_of_not_mem (by
        rw [List.mem_range]
        omega)]

/-- Witness for C1 on `sagaW` (step 2's action fails): steps 0–2 act once,
step 3 never acts, compensations of steps 1 and 0 run once in that order, and
step 2 is never compensated. -/
theorem saga_step_failure_rollback_witness :
    (execute sagaW).trace =
        (List.range 3).map SagaEv.act ++ ((List.range 2).reverse).map SagaEv.comp ∧
      (execute sagaW).trace.count (SagaEv.act 0) = 1 ∧
      (execute sagaW).trace.count (SagaEv.act 3) = 0 ∧
      (execute sagaW).trace.count (SagaEv.comp 1) = 1 ∧
      (execute sagaW).trace.count (SagaEv.comp 2) = 0 := by
  have h := saga_step_failure_rollback sagaW 2 (by decide)
    (by decide) (by decide)
  exact ⟨h.1, h.2.1 0 (by decide), h.2.2.1 3 (by decide),
    h.2.2.2.1 1 (by decide), h.2.2.2.2⟩

/-- C2.  For a write request with key `key` against a clean store: when the
guarded operation completes successfully (2xx), the completion record is
written (with the 24-hour retention TTL) *before* the deferred unlock
releases the lock, and a repeated call with the same key no longer invokes
the operation; when the operation fails (non-2xx), no completion record is
written, the lock is released, and a repeated call with the same key invokes
the operation again. -/
theorem idempotent_success_suppresses_retry (method key : String)
    (s1 s2 : Int) (st : Store)
    (hm1 : method ≠ "GET") (hm2 : method ≠ "HEAD") (hkey : key ≠ "")
    (hfree : st.completed = false) (hlock : st.locked = false) :
    (200 ≤ s1 ∧ s1 < 300 →
      (middleware method key s1 st).trace =
          [MwEv.checkComplete, MwEv.lockOk, MwEv.invokeOp,
           MwEv.setComplete (24 * 3600), MwEv.unlock] ∧
        (middleware method key s1 st).store =
          { completed := true, locked := false } ∧
        MwEv.invokeOp ∉
          (middleware method key s2 (middleware method key s1 st).store).trace) ∧
    (¬ (200 ≤ s1 ∧ s1 < 300) →
      (middleware method key s1 st).store =
          { completed := false, locked := false } ∧
        MwEv.setComplete (24 * 3600) ∉ (middleware method key s1 st).trace ∧
        MwEv.unlock ∈ (middleware method key s1 st).trace ∧
        MwEv.invokeOp ∈
          (middleware method key s2 (middleware method key s1 st).store).trace) := by
  have hcm : ¬ (method = "GET" ∨ method = "HEAD") := by
    rintro (h | h)
    · exact hm1 h
    · exact hm2 h
  constructor
  · intro hs
    have h1 : middleware method key s1 st =
        { status := s1, store := { completed := true, locked := false },
          trace := [MwEv.checkComplete, MwEv.lockOk, MwEv.invokeOp,
            MwEv.setComplete (24 * 3600), MwEv.unlock] } := by
      simp [middleware, hcm, hkey, hfree, hlock, hs]
    have h2 : middleware method key s2
        (Store.mk true false) =
        { status := 409, store := { completed := true, locked := false },
          trace := [MwEv.checkComplete] } := by
      simp [middleware, hcm, hkey]
    rw [h1]
    refine ⟨rfl, rfl, ?_⟩
    show MwEv.invokeOp ∉ (middleware method key s2 (Store.mk true false)).trace
    rw [h2]
    simp
  · intro hs
    have h1 : middleware method key s1 st =
        { status := s1, store := { completed := false, locked := false },
          trace := [MwEv.checkComplete, MwEv.lockOk, MwEv.invokeOp,
            MwEv.unlock] } := by
      simp [middleware, hcm, hkey, hfree, hlock, hs]
    have h2 : middleware method key s2
        (Store.mk false false) =
        (if 200 ≤ s2 ∧ s2 < 300 then
          { status := s2, store := { completed := true, locked := false },
            trace := [MwEv.checkComplete, MwEv.lockOk, MwEv.invokeOp,
              MwEv.setComplete (24 * 3600), MwEv.unlock] }
        else
          { status := s2, store := { completed := false, locked := false },
            trace := [MwEv.checkComplete, MwEv.lockOk, MwEv.invokeOp,
              MwEv.unlock] }) := by
      simp [middleware, hcm, hkey]
    rw [h1]
    refine ⟨rfl, by simp, by simp, ?_⟩
    show MwEv.invokeOp ∈ (middleware method key s2 (Store.mk false false)).trace
    rw [h2]
    split
    · simp
    · simp

/-- Witness for C2: a POST with key "k" against a clean store, first call
succeeding with 200 (retry answered without invoking the operation), and a
first call failing with 500 (retry re-invokes the operation). -/
theorem idempotent_success_suppresses_retry_witness :
    ((middleware "POST" "k" 200 ⟨false, false⟩).trace =
        [MwEv.checkComplete, MwEv.lockOk, MwEv.invokeOp,
         MwEv.setComplete (24 * 3600), MwEv.unlock] ∧
      (middleware "POST" "k" 200 ⟨false, false⟩).store =
        { completed := true, locked := false } ∧
      MwEv.invokeOp ∉
        (middleware "POST" "k" 200
          (middleware "POST" "k" 200 ⟨false, false⟩).store).trace) ∧
    ((middleware "POST" "k" 500 ⟨false, false⟩).store =
        { completed := false, locked := false } ∧
      MwEv.setComplete (24 * 3600) ∉ (middleware "POST" "k" 500 ⟨false, false⟩).trace ∧
      MwEv.unlock ∈ (middleware "POST" "k" 500 ⟨false, false⟩).trace ∧
      MwEv.invokeOp ∈
        (middleware "POST" "k" 200
          (middleware "POST" "k" 500 ⟨false, false⟩).store).trace) :=
  ⟨(idempotent_success_suppresses_retry "POST" "k" 200 200 ⟨false, false⟩
      (by decide) (by decide) (by decide) rfl rfl).1 (by decide),
   (idempotent_success_suppresses_retry "POST" "k" 500 200 ⟨false, false⟩
      (by decide) (by decide) (by decide) rfl rfl).2 (by decide)⟩

/-- Counterexample to C6.  A POST with key "k" against a clean store and a
succeeding operation: the lock is acquired and the operation invoked, but the
trace contains no completion-record check anywhere after the lock
acquisition — the subsequence `lockOk, checkComplete, invokeOp` the claim
requires does not occur.  The code goes straight from `cache.Lock` to
`c.Next()` with no re-check under the lock. -/
theorem idempotent_no_recheck_counterexample :
    (middleware "POST" "k" 200 ⟨false, false⟩).trace =
        [MwEv.checkComplete, MwEv.lockOk, MwEv.invokeOp,
         MwEv.setComplete (24 * 3600), MwEv.unlock] ∧
      isSubseqOf [MwEv.lockOk, MwEv.checkComplete, MwEv.invokeOp]
        (middleware "POST" "k" 200 ⟨false, false⟩).trace = false := by
  decide

/-- C6 amended.  After the exclusive lock for the key has been acquired the
middleware invokes the operation directly, with no second completion-record
check: in every execution the completion record is read at most once, and
never after the lock acquisition. -/
theorem idempotent_no_recheck_after_lock (method key : String)
    (opStatus : Int) (st : Store) :
    isSubseqOf [MwEv.lockOk, MwEv.checkComplete]
        (middleware method key opStatus st).trace = false ∧
      (middleware method key opStatus st).trace.count MwEv.checkComplete ≤ 1 := by
  have h := middleware_trace_cases method key opStatus st
  simp only [List.mem_cons, List.not_mem_nil, or_false] at h
  rcases h with h | h | h | h | h | h <;> rw [h] <;> decide

/-- C10.  A non-GET, non-HEAD request with an empty `X-Idempotent-Key` header
is rejected with status 400 without invoking the guarded operation and
without touching the coordination store: the trace is empty and the store is
returned unchanged. -/
theorem idempotent_missing_key_rejected (method : String) (opStatus : Int)
    (st : Store) (hm1 : method ≠ "GET") (hm2 : method ≠ "HEAD") :
    middleware method "" opStatus st =
      { status := 400, store := st, trace := [] } := by
  have hcm : ¬ (method = "GET" ∨ method = "HEAD") := by
    rintro (h | h)
    · exact hm1 h
    · exact hm2 h
  simp [middleware, hcm]

/-- Witness for C10: a POST with an empty key at a clean store. -/
theorem idempotent_missing_key_rejected_witness :
    middleware "POST" "" 200 ⟨false, false⟩ =
      { status := 400, store := ⟨false, false⟩, trace := [] } :=
  idempotent_missing_key_rejected "POST" 200 ⟨false, false⟩
    (by decide) (by decide)

/-- Counterexample to C5.  Two two-step sagas, identical except that in the
first the compensation of step 0 fails: `Execute` returns the *same* error
value for both (the error wraps only the failing step's name and its action
error), so the compensation failure is absent from the result — it is only
printed to stdout.  The claim that the returned error is augmented with the
list of compensation errors is false at this input. -/
theorem saga_compensation_error_not_in_result :
    (execute [⟨"s0", true, "", false⟩, ⟨"s1", false, "boom", true⟩]).err =
        (execute [⟨"s0", true, "", true⟩, ⟨"s1", false, "boom", true⟩]).err ∧
      (execute [⟨"s0", true, "", false⟩, ⟨"s1", false, "boom", true⟩]).printed =
        ["s0"] ∧
      (execute [⟨"s0", true, "", false⟩, ⟨"s1", false, "boom", true⟩]).err =
        some ⟨"s1", "boom"⟩ := by
  decide

/-- C5 amended.  When step `k`'s action fails and compensations may also
fail: `Execute`'s returned error identifies the failing step (name) and the
underlying action error, and every compensation of steps `0..k-1` is still
attempted despite earlier compensation failures; but compensation failures
are not part of the returned error — they are reported individually on
stdout (`补偿步骤 %s 失败`), in compensation order. -/
theorem saga_execute_error_report (steps : List Step) (k : Nat)
    (hk : k < steps.length)
    (hpre : ∀ i, i < k → (stepAt steps i).actionOk = true)
    (hfail : (stepAt steps k).actionOk = false) :
    (execute steps).err =
        some ⟨(stepAt steps k).name, (stepAt steps k).actionErr⟩ ∧
      (execute steps).trace =
        (List.range (k + 1)).map SagaEv.act ++
          ((List.range k).reverse).map SagaEv.comp ∧
      (execute steps).printed =
        (((List.range k).reverse).filter (fun i => !(stepAt steps i).compOk)).map
          (fun i => (stepAt steps i).name) := by
  have hdecomp : steps = steps.take k ++ stepAt steps k :: steps.drop (k + 1) := by
    conv_lhs => rw [← List.take_append_drop k steps]
    rw [List.drop_eq_getElem_cons hk,
      show stepAt steps k = steps[k] from List.getD_eq_getElem _ _ hk]
  have htake : ∀ st ∈ steps.take k, st.actionOk = true := by
    intro st hst
    rw [List.mem_iff_getElem] at hst
    obtain ⟨n, hn, hEq⟩ := hst
    have hn' : n < k := by
      have := hn
      simp only [List.length_take] at this
      omega
    have hn'' : n < steps.length := by omega
    rw [← hEq, List.getElem_take,
      show steps[n] = stepAt steps n from (List.getD_eq_getElem _ _ hn'').symm]
    exact hpre n hn'
  have hrun := executeFrom_fail steps (steps.take k) (stepAt steps k)
    (steps.drop (k + 1)) 0 [] htake hfail
  have hswap : executeFrom steps steps 0 [] =
      executeFrom steps (steps.take k ++ stepAt steps k :: steps.drop (k + 1))
        0 [] := by
    rw [← hdecomp]
  have hlen : (steps.take k).length = k := by
    rw [List.length_take]
    omega
  have hvalid : ∀ i ∈ (List.range k).reverse, i < steps.length := by
    intro i hi
    rw [List.mem_reverse, List.mem_range] at hi
    omega
  have hcomp := compensateList_eq steps (List.range k).reverse hvalid
  refine ⟨?_, ?_, ?_⟩
  · show (executeFrom steps steps 0 []).err = _
    rw [hswap, hrun]
  · show (executeFrom steps steps 0 []).trace = _
    rw [hswap, hrun]
    simp only [hlen, List.nil_append, ← List.range_eq_range', compensate, hcomp]
    rw [List.range_succ, List.map_append]
    simp
  · show (executeFrom steps steps 0 []).printed = _
    rw [hswap, hrun]
    simp only [hlen, List.nil_append, ← List.range_eq_range', compensate, hcomp]

/-- Witness for C5 amended on `sagaW` (step 2's action fails, step 1's
compensation fails): the error wraps step "s2" and "boom", both
compensations are attempted, and only "s1" is printed. -/
theorem saga_execute_error_report_witness :
    (execute sagaW).err = some ⟨(stepAt sagaW 2).name, (stepAt sagaW 2).actionErr⟩ ∧
      (execute sagaW).trace =
        (List.range 3).map SagaEv.act ++ ((List.range 2).reverse).map SagaEv.comp ∧
      (execute sagaW).printed =
        (((List.range 2).reverse).filter (fun i => !(stepAt sagaW i).compOk)).map
          (fun i => (stepAt sagaW i).name) :=
  saga_execute_error_report sagaW 2 (by decide) (by decide) (by decide)

/-- C4.  The circuit breaker state machine: (1) from Closed with a clean
failure count, fewer than `failureThreshold` consecutive failing calls leave
it Closed and exactly `failureThreshold` of them trip it to Open; (2) while
Open, a call before `resetTimeout` has elapsed since `openedAt` returns the
`ErrCircuitOpen` sentinel without invoking the wrapped function and changes
nothing; (3) a call after `resetTimeout` has elapsed is allowed and moves the
breaker to HalfOpen; (4) from HalfOpen, a second consecutive success closes
the breaker; (5) any single HalfOpen failure reopens it immediately with
`openedAt` stamped to the current clock. -/
theorem circuitBreaker_state_machine :
    (∀ (cb : CircuitBreaker) (now : Int),
        cb.state = .Closed → cb.failureCount = 0 → 1 ≤ cb.failureThreshold →
        (∀ j, j < cb.failureThreshold → (cb.failCalls now j).state = .Closed) ∧
          (cb.failCalls now cb.failureThreshold).state = .Open) ∧
    (∀ (cb : CircuitBreaker) (now : Int) (fnFails : Bool),
        cb.state = .Open → now - cb.openTime < cb.timeout →
        cb.call now fnFails = (CallResult.rejected, cb)) ∧
    (∀ (cb : CircuitBreaker) (now : Int),
        cb.state = .Open → cb.timeout < now - cb.openTime →
        cb.allow now = (true, { cb with state := .HalfOpen, successCount := 0 })) ∧
    (∀ (cb : CircuitBreaker) (now now2 : Int),
        cb.state = .HalfOpen → cb.successCount = 0 →
        (cb.call now false).2.state = .HalfOpen ∧
          (((cb.call now false).2).call now2 false).2.state = .Closed) ∧
    (∀ (cb : CircuitBreaker) (now : Int),
        cb.state = .HalfOpen →
        (cb.call now true).2.state = .Open ∧ (cb.call now true).2.openTime = now) := by
  refine ⟨?_, ?_, ?_, ?_, ?_⟩
  · intro cb now h hf hN
    constructor
    · intro j hj
      exact (failCalls_closed j cb now h (by omega)).1
    · have hsplit : cb.failureThreshold = (cb.failureThreshold - 1) + 1 := by omega
      obtain ⟨hs, hc, ht⟩ :=
        failCalls_closed (cb.failureThreshold - 1) cb now h (by omega)
      rw [hsplit, failCalls_add]
      have hstep : (cb.failCalls now (cb.failureThreshold - 1)).failCalls now 1 =
          ((cb.failCalls now (cb.failureThreshold - 1)).call now true).2 := rfl
      rw [hstep, call_closed_fail_trip _ now hs (by omega)]
  · intro cb now fnFails h hlt
    have hcond : ¬ (cb.timeout < now - cb.openTime) := by omega
    simp [CircuitBreaker.call, CircuitBreaker.allow, h, hcond]
  · intro cb now h hgt
    simp [CircuitBreaker.allow, h, hgt]
  · intro cb now now2 h hs
    have h1 : (cb.call now false).2 =
        { cb with successCount := 1, failureCount := 0 } := by
      simp [CircuitBreaker.call, CircuitBreaker.allow, CircuitBreaker.record, h, hs]
    refine ⟨by rw [h1]; exact h, ?_⟩
    rw [h1]
    simp [CircuitBreaker.call, CircuitBreaker.allow, CircuitBreaker.record, h]
  · intro cb now h
    constructor <;>
      simp [CircuitBreaker.call, CircuitBreaker.allow, CircuitBreaker.record, h]

/-- Witness for C4 with threshold 2, timeout 10: two failures trip a fresh
breaker; an Open breaker rejects at clock 5 and admits to HalfOpen at clock
11; two HalfOpen successes close it; one HalfOpen failure reopens it. -/
theorem circuitBreaker_state_machine_witness :
    ((CircuitBreaker.new 2 10).failCalls 0 1).state = .Closed ∧
      ((CircuitBreaker.new 2 10).failCalls 0 2).state = .Open ∧
      (cbOpenW.call 5 true = (CallResult.rejected, cbOpenW)) ∧
      (cbOpenW.allow 11 = (true, { cbOpenW with state := .HalfOpen, successCount := 0 })) ∧
      ((cbHalfW.call 12 false).2.state = .HalfOpen ∧
        (((cbHalfW.call 12 false).2).call 13 false).2.state = .Closed) ∧
      ((cbHalfW.call 12 true).2.state = .Open ∧ (cbHalfW.call 12 true).2.openTime = 12) := by
  obtain ⟨p1, p2, p3, p4, p5⟩ := circuitBreaker_state_machine
  exact ⟨(p1 (CircuitBreaker.new 2 10) 0 rfl rfl (by decide)).1 1 (by decide),
         (p1 (CircuitBreaker.new 2 10) 0 rfl rfl (by decide)).2,
         p2 cbOpenW 5 true rfl (by decide),
         p3 cbOpenW 11 rfl (by decide),
         p4 cbHalfW 12 13 rfl rfl,
         p5 cbHalfW 12 rfl⟩

/-- Counterexample to C7.  A fresh breaker with `failureThreshold = 1` takes
one failing call at clock 5: the state transitions Closed → Open, yet
`failureCount` is 1, not 0 — `record` trips the breaker *after* incrementing
`failureCount` and never resets it on the transition. -/
theorem circuitBreaker_counts_not_reset :
    (CircuitBreaker.new 1 10).state = .Closed ∧
      ((CircuitBreaker.new 1 10).call 5 true).2.state = .Open ∧
      ((CircuitBreaker.new 1 10).call 5 true).2.failureCount ≠ 0 := by
  decide

/-- C7 amended.  On every transition only the counter of the *opposite*
outcome is reset: any failure recorded (covering Closed → Open and
HalfOpen → Open) zeroes `successCount` while `failureCount` keeps its
just-incremented value; any success recorded (covering HalfOpen → Closed)
zeroes `failureCount` while `successCount` keeps its just-incremented value;
the Open → HalfOpen move inside `allow` zeroes `successCount` and leaves
`failureCount` unchanged. -/
theorem circuitBreaker_count_reset_spec :
    (∀ (cb : CircuitBreaker) (now : Int),
        (cb.record true now).successCount = 0 ∧
          (cb.record true now).failureCount = cb.failureCount + 1) ∧
    (∀ (cb : CircuitBreaker) (now : Int),
        (cb.record false now).failureCount = 0 ∧
          (cb.record false now).successCount = cb.successCount + 1) ∧
    (∀ (cb : CircuitBreaker) (now : Int),
        cb.state = .Open → cb.timeout < now - cb.openTime →
        (cb.allow now).2.successCount = 0 ∧
          (cb.allow now).2.failureCount = cb.failureCount) := by
  refine ⟨?_, ?_, ?_⟩
  · intro cb now
    simp only [CircuitBreaker.record]
    split <;> (try split) <;> (try split) <;> simp_all
  · intro cb now
    simp only [CircuitBreaker.record]
    split <;> (try split) <;> (try split) <;> simp_all
  · intro cb now h hgt
    simp [CircuitBreaker.allow, h, hgt]

/-- Witness for C7 amended, on `cbOpenW` and a fresh breaker at clock 11. -/
theorem circuitBreaker_count_reset_spec_witness :
    (((CircuitBreaker.new 2 10).record true 11).successCount = 0 ∧
      ((CircuitBreaker.new 2 10).record true 11).failureCount =
        (CircuitBreaker.new 2 10).failureCount + 1) ∧
    (((CircuitBreaker.new 2 10).record false 11).failureCount = 0 ∧
      ((CircuitBreaker.new 2 10).record false 11).successCount =
        (CircuitBreaker.new 2 10).successCount + 1) ∧
    ((cbOpenW.allow 11).2.successCount = 0 ∧
      (cbOpenW.allow 11).2.failureCount = cbOpenW.failureCount) := by
  obtain ⟨q1, q2, q3⟩ := circuitBreaker_count_reset_spec
  exact ⟨q1 (CircuitBreaker.new 2 10) 11, q2 (CircuitBreaker.new 2 10) 11,
         q3 cbOpenW 11 rfl (by decide)⟩

end MicroService
